import Mathlib

/-!
Verification of the bank transaction analyzer core pipeline.

A shallow embedding of the scoring/flagging core of the repository
(`Models/feature_builder.py`, `Models/risk_scorer.py`,
`Models/transaction_flagger.py`), with theorems checking the
natural-language specification against it.

Conventions of the embedding:
* pandas numeric values are modelled as exact rationals `ℚ` (reals `ℝ` where a
  square root is computed); a DataFrame is a list of rows;
* pandas `sort_values` on several columns is a stable lexicographic sort,
  modelled by `List.insertionSort` (stable, sorted — hence extensionally the
  same reordering);
* string comparison is code-point lexicographic, as in pandas.
-/

namespace BankRisk

/-! ## Shared numeric utilities -/

/-- Mean of a list of rationals (pandas `Series.mean`; division by zero for the
empty series is irrelevant to the claims below, `ℚ` gives `0`). -/
def qmean (l : List ℚ) : ℚ := l.sum / l.length

/-- pandas `Series.min` over a column, `0` for an empty column (unused case). -/
def colMin : List ℚ → ℚ
  | [] => 0
  | x :: xs => xs.foldl min x

/-- pandas `Series.max` over a column, `0` for an empty column (unused case). -/
def colMax : List ℚ → ℚ
  | [] => 0
  | x :: xs => xs.foldl max x

theorem foldl_min_le_init (xs : List ℚ) (a : ℚ) : xs.foldl min a ≤ a := by
  induction xs generalizing a with
  | nil => simp
  | cons x xs ih => exact le_trans (ih (min a x)) (min_le_left a x)

theorem foldl_min_le_mem (xs : List ℚ) (a : ℚ) : ∀ x ∈ xs, xs.foldl min a ≤ x := by
  induction xs generalizing a with
  | nil => intro x hx; cases hx
  | cons y ys ih =>
    intro x hx
    rcases List.mem_cons.mp hx with h | h
    · subst h
      exact le_trans (foldl_min_le_init ys (min a x)) (min_le_right a x)
    · exact ih (min a y) x h

theorem foldl_min_mem (xs : List ℚ) (a : ℚ) : xs.foldl min a = a ∨ xs.foldl min a ∈ xs := by
  induction xs generalizing a with
  | nil => left; rfl
  | cons y ys ih =>
    rcases ih (min a y) with h | h
    · rcases min_cases a y with ⟨h', _⟩ | ⟨h', _⟩
      · left; rw [List.foldl_cons, h, h']
      · right; rw [List.foldl_cons, h, h']; exact List.mem_cons_self y ys
    · right; exact List.mem_cons_of_mem y h

theorem foldl_max_init_le (xs : List ℚ) (a : ℚ) : a ≤ xs.foldl max a := by
  induction xs generalizing a with
  | nil => simp
  | cons x xs ih => exact le_trans (le_max_left a x) (ih (max a x))

theorem foldl_max_mem_le (xs : List ℚ) (a : ℚ) : ∀ x ∈ xs, x ≤ xs.foldl max a := by
  induction xs generalizing a with
  | nil => intro x hx; cases hx
  | cons y ys ih =>
    intro x hx
    rcases List.mem_cons.mp hx with h | h
    · subst h
      exact le_trans (le_max_right a x) (foldl_max_init_le ys (max a x))
    · exact ih (max a y) x h

theorem foldl_max_mem (xs : List ℚ) (a : ℚ) : xs.foldl max a = a ∨ xs.foldl max a ∈ xs := by
  induction xs generalizing a with
  | nil => left; rfl
  | cons y ys ih =>
    rcases ih (max a y) with h | h
    · rcases max_cases a y with ⟨h', _⟩ | ⟨h', _⟩
      · left; rw [List.foldl_cons, h, h']
      · right; rw [List.foldl_cons, h, h']; exact List.mem_cons_self y ys
    · right; exact List.mem_cons_of_mem y h

theorem colMin_le_mem (l : List ℚ) : ∀ x ∈ l, colMin l ≤ x := by
  intro x hx
  cases l with
  | nil => cases hx
  | cons y ys =>
    rcases List.mem_cons.mp hx with h | h
    · subst h; exact foldl_min_le_init ys x
    · exact foldl_min_le_mem ys y x h

theorem colMin_mem (l : List ℚ) (h : l ≠ []) : colMin l ∈ l := by
  cases l with
  | nil => exact absurd rfl h
  | cons y ys =>
    rcases foldl_min_mem ys y with h' | h'
    · rw [colMin, h']; exact List.mem_cons_self y ys
    · exact List.mem_cons_of_mem y h'

theorem mem_le_colMax (l : List ℚ) : ∀ x ∈ l, x ≤ colMax l := by
  intro x hx
  cases l with
  | nil => cases hx
  | cons y ys =>
    rcases List.mem_cons.mp hx with h | h
    · subst h; exact foldl_max_init_le ys x
    · exact foldl_max_mem_le ys y x h

theorem colMax_mem (l : List ℚ) (h : l ≠ []) : colMax l ∈ l := by
  cases l with
  | nil => exact absurd rfl h
  | cons y ys =>
    rcases foldl_max_mem ys y with h' | h'
    · rw [colMax, h']; exact List.mem_cons_self y ys
    · exact List.mem_cons_of_mem y h'

/-! ## `RiskScorer._compute_final_score` — min-max rescaling (lines 102–121)

The step receives the `composite_zscore` column and produces the
`risk_score` column.  Source:

    min_val = self.risk_scores["composite_zscore"].min()
    max_val = self.risk_scores["composite_zscore"].max()
    if max_val > min_val:
        risk_score = (composite_zscore - min_val) / (max_val - min_val) * 100
    else:
        risk_score = 50.0
-/

def rescaleScores (cs : List ℚ) : List ℚ :=
  if colMin cs < colMax cs then
    cs.map (fun x => (x - colMin cs) / (colMax cs - colMin cs) * 100)
  else
    cs.map (fun _ => 50)

theorem colMin_lt_colMax_of_two_distinct (cs : List ℚ)
    (h : ∃ a ∈ cs, ∃ b ∈ cs, a ≠ b) : colMin cs < colMax cs := by
  obtain ⟨a, ha, b, hb, hab⟩ := h
  rcases lt_or_eq_of_le (le_trans (colMin_le_mem cs a ha) (mem_le_colMax cs a ha)) with h | h
  · exact h
  · exfalso
    apply hab
    have h1 : a ≤ colMax cs := mem_le_colMax cs a ha
    have h2 : colMin cs ≤ a := colMin_le_mem cs a ha
    have h3 : b ≤ colMax cs := mem_le_colMax cs b hb
    have h4 : colMin cs ≤ b := colMin_le_mem cs b hb
    rw [← h] at h1 h3
    have ea : a = colMin cs := le_antisymm h1 h2
    have eb : b = colMin cs := le_antisymm h3 h4
    rw [ea, eb]

/-- C1: Risk score is the linear min-max rescaling of `composite_zscore`
across the customer population: with at least two distinct composite values the
score column is the pointwise map `(c - min) / (max - min) * 100`, sending a
minimum-composite customer to exactly `0` and a maximum-composite customer to
exactly `100`; when every composite value is identical, every customer receives
exactly `50`. -/
theorem risk_score_minmax_rescaling (cs : List ℚ) :
    ((∃ a ∈ cs, ∃ b ∈ cs, a ≠ b) →
      rescaleScores cs =
        cs.map (fun x => (x - colMin cs) / (colMax cs - colMin cs) * 100) ∧
      (∀ x ∈ cs, x = colMin cs → (x - colMin cs) / (colMax cs - colMin cs) * 100 = 0) ∧
      (∀ x ∈ cs, x = colMax cs → (x - colMin cs) / (colMax cs - colMin cs) * 100 = 100)) ∧
    ((∀ a ∈ cs, ∀ b ∈ cs, a = b) → rescaleScores cs = cs.map (fun _ => 50)) := by
  constructor
  · intro h
    have hlt : colMin cs < colMax cs := colMin_lt_colMax_of_two_distinct cs h
    refine ⟨by rw [rescaleScores, if_pos hlt], ?_, ?_⟩
    · intro x _ hx
      rw [hx, sub_self, zero_div, zero_mul]
    · intro x _ hx
      rw [hx, div_self (ne_of_gt (sub_pos.mpr hlt)), one_mul]
  · intro h
    cases cs with
    | nil => rfl
    | cons y ys =>
      have hne : (y :: ys : List ℚ) ≠ [] := by simp
      have hmin : colMin (y :: ys) ∈ y :: ys := colMin_mem _ hne
      have hmax : colMax (y :: ys) ∈ y :: ys := colMax_mem _ hne
      have heq : colMin (y :: ys) = colMax (y :: ys) := h _ hmin _ hmax
      rw [rescaleScores, if_neg (by rw [heq]; exact lt_irrefl _)]

/-- Witness for C1: the population `[1, 3]` has two distinct composites and is
rescaled to `[0, 100]`; the constant population `[2, 2]` is rescaled to
`[50, 50]`. -/
theorem risk_score_minmax_rescaling_witness :
    rescaleScores [(1 : ℚ), 3] = [0, 100] ∧ rescaleScores [(2 : ℚ), 2] = [50, 50] := by
  constructor
  · have h := (risk_score_minmax_rescaling [(1 : ℚ), 3]).1
      ⟨1, by norm_num, 3, by norm_num, by norm_num⟩
    rw [h.1]
    have hmin : colMin [(1 : ℚ), 3] = 1 := by
      show min 1 3 = 1
      norm_num
    have hmax : colMax [(1 : ℚ), 3] = 3 := by
      show max 1 3 = 3
      norm_num
    rw [hmin, hmax]
    norm_num
  · have h := (risk_score_minmax_rescaling [(2 : ℚ), 2]).2 (by intro a ha b hb; fin_cases ha <;> fin_cases hb <;> rfl)
    rw [h]
    rfl

/-! ## `RiskScorer._assign_risk_bands` (lines 123–129)

    def get_band(score):
        for band, (low, high) in self.risk_bands.items():
            if low <= score < high:
                return band
        return "Critical"

with `risk_bands` mapping Low to (0, 25), Medium to (25, 50), High to
(50, 75) and Critical to (75, 100), iterated in insertion order. -/

def riskBandList : List (String × ℚ × ℚ) :=
  [("Low", (0, 25)), ("Medium", (25, 50)), ("High", (50, 75)), ("Critical", (75, 100))]

def getBand (score : ℚ) : String :=
  match riskBandList.find? (fun b => decide (b.2.1 ≤ score ∧ score < b.2.2)) with
  | some b => b.1
  | none => "Critical"

theorem find?_decide_cons {α : Type} (P : α → Prop) [DecidablePred P] (a : α) (l : List α) :
    List.find? (fun x => decide (P x)) (a :: l) =
      if P a then some a else List.find? (fun x => decide (P x)) l := by
  by_cases h : P a
  · rw [if_pos h]
    apply List.find?_cons_of_pos
    exact decide_eq_true h
  · rw [if_neg h]
    apply List.find?_cons_of_neg
    simpa using h

/-- C5: Risk band assignment is a total function of `risk_score` realising
the half-open-interval partition: `[0,25) ↦ Low`, `[25,50) ↦ Medium`,
`[50,75) ↦ High`, `[75,100) ↦ Critical`, and every score `≥ 100` falls through
to `Critical`. -/
theorem risk_band_partition (s : ℚ) :
    (0 ≤ s → s < 25 → getBand s = "Low") ∧
    (25 ≤ s → s < 50 → getBand s = "Medium") ∧
    (50 ≤ s → s < 75 → getBand s = "High") ∧
    (75 ≤ s → s < 100 → getBand s = "Critical") ∧
    (100 ≤ s → getBand s = "Critical") := by
  refine ⟨?_, ?_, ?_, ?_, ?_⟩
  · intro h1 h2
    simp only [getBand, riskBandList, find?_decide_cons]
    rw [if_pos ⟨h1, h2⟩]
  · intro h1 h2
    have n1 : ¬ ((0 : ℚ) ≤ s ∧ s < 25) := by rintro ⟨_, h⟩; linarith
    simp only [getBand, riskBandList, find?_decide_cons]
    rw [if_neg n1, if_pos ⟨h1, h2⟩]
  · intro h1 h2
    have n1 : ¬ ((0 : ℚ) ≤ s ∧ s < 25) := by rintro ⟨_, h⟩; linarith
    have n2 : ¬ ((25 : ℚ) ≤ s ∧ s < 50) := by rintro ⟨_, h⟩; linarith
    simp only [getBand, riskBandList, find?_decide_cons]
    rw [if_neg n1, if_neg n2, if_pos ⟨h1, h2⟩]
  · intro h1 h2
    have n1 : ¬ ((0 : ℚ) ≤ s ∧ s < 25) := by rintro ⟨_, h⟩; linarith
    have n2 : ¬ ((25 : ℚ) ≤ s ∧ s < 50) := by rintro ⟨_, h⟩; linarith
    have n3 : ¬ ((50 : ℚ) ≤ s ∧ s < 75) := by rintro ⟨_, h⟩; linarith
    simp only [getBand, riskBandList, find?_decide_cons]
    rw [if_neg n1, if_neg n2, if_neg n3, if_pos ⟨h1, h2⟩]
  · intro h1
    have n1 : ¬ ((0 : ℚ) ≤ s ∧ s < 25) := by rintro ⟨_, h⟩; linarith
    have n2 : ¬ ((25 : ℚ) ≤ s ∧ s < 50) := by rintro ⟨_, h⟩; linarith
    have n3 : ¬ ((50 : ℚ) ≤ s ∧ s < 75) := by rintro ⟨_, h⟩; linarith
    have n4 : ¬ ((75 : ℚ) ≤ s ∧ s < 100) := by rintro ⟨_, h⟩; linarith
    simp only [getBand, riskBandList, find?_decide_cons]
    rw [if_neg n1, if_neg n2, if_neg n3, if_neg n4, List.find?_nil]

/-- Witness for C5: one concrete score in each interval, plus an overflow
score. -/
theorem risk_band_partition_witness :
    getBand 10 = "Low" ∧ getBand 30 = "Medium" ∧ getBand 60 = "High" ∧
    getBand 80 = "Critical" ∧ getBand 120 = "Critical" :=
  ⟨(risk_band_partition 10).1 (by norm_num) (by norm_num),
   (risk_band_partition 30).2.1 (by norm_num) (by norm_num),
   (risk_band_partition 60).2.2.1 (by norm_num) (by norm_num),
   (risk_band_partition 80).2.2.2.1 (by norm_num) (by norm_num),
   (risk_band_partition 120).2.2.2.2 (by norm_num)⟩

/-! ## `FeatureBuilder` (`Models/feature_builder.py`)

`build_features` stores the argument itself (`self.features = cleaned_data`,
line 16 — no copy) and then mutates that one object in place:
`_add_transaction_features`, `_add_customer_features` and
`_add_velocity_features` assign new columns, and `_add_rolling_features`
first reorders the rows with `sort_values(["nameOrig","step"], inplace=True)`
and then assigns the two rolling columns.  The per-customer and per-day
group statistics are therefore computed on the pre-sort frame (their values
are row-local, so the later sort just carries them along), while the rolling
windows are taken over the sorted order, grouped by `nameOrig`. -/

/-- pandas string order: code-point lexicographic comparison. -/
def strLt (a b : String) : Prop := List.Lex (· < ·) a.data b.data

instance : DecidableRel strLt := fun a b => by unfold strLt; infer_instance

theorem strLt_iff (a b : String) : strLt a b ↔ a < b := by
  exact (@String.lt_iff_toList_lt a b).symm

/-- The columns of the cleaned table that the feature computations read
(`step`, `nameOrig`, `amount`, `oldbalanceOrg`, `newbalanceOrig`); the other
cleaned columns are passed through untouched and play no role in the claims. -/
structure CleanedRow where
  step : ℕ
  nameOrig : String
  amount : ℚ
  oldbalanceOrg : ℚ
  newbalanceOrig : ℚ
deriving DecidableEq, Inhabited

/-- A cleaned row together with every column added by `build_features`. -/
structure FeatureRow where
  base : CleanedRow
  balance_ratio_orig : ℚ
  is_full_drain : Bool
  hour_of_day : ℕ
  day : ℕ
  trns_count_customer : ℕ
  trns_total_customer : ℚ
  trns_avg_customer : ℚ
  trns_max_customer : ℚ
  daily_trns_velocity : ℕ
  rolling_mean_amount : ℚ
  rolling_max_amount : ℚ
deriving DecidableEq, Inhabited

/-- The key order of `sort_values(["nameOrig", "step"])`. -/
def rowLe (a b : CleanedRow) : Prop :=
  strLt a.nameOrig b.nameOrig ∨ (a.nameOrig = b.nameOrig ∧ a.step ≤ b.step)

instance : DecidableRel rowLe := fun a b => by unfold rowLe; infer_instance

instance : IsTrans CleanedRow rowLe where
  trans a b c hab hbc := by
    rcases hab with h1 | ⟨e1, s1⟩
    · rcases hbc with h2 | ⟨e2, _⟩
      · exact Or.inl ((strLt_iff _ _).mpr (lt_trans ((strLt_iff _ _).mp h1) ((strLt_iff _ _).mp h2)))
      · exact Or.inl (e2 ▸ h1)
    · rcases hbc with h2 | ⟨e2, s2⟩
      · exact Or.inl (e1 ▸ h2)
      · exact Or.inr ⟨e1.trans e2, le_trans s1 s2⟩

instance : IsTotal CleanedRow rowLe where
  total a b := by
    rcases lt_trichotomy a.nameOrig b.nameOrig with h | h | h
    · exact Or.inl (Or.inl ((strLt_iff _ _).mpr h))
    · rcases Nat.le_total a.step b.step with hs | hs
      · exact Or.inl (Or.inr ⟨h, hs⟩)
      · exact Or.inr (Or.inr ⟨h.symm, hs⟩)
    · exact Or.inr (Or.inl ((strLt_iff _ _).mpr h))

/-- Model of `sort_values(["nameOrig","step"], inplace=True)`: a stable sort
on the lexicographic key, modelled by insertion sort (stable and sorted,
hence the same reordering as the stable lexsort of pandas). -/
def sortRows (rows : List CleanedRow) : List CleanedRow := rows.insertionSort rowLe

/-- The trailing window of the last `n` values of a list. -/
def lastN (n : ℕ) (l : List ℚ) : List ℚ := l.drop (l.length - n)

/-- The `rolling(5, min_periods=1)` window ending at position `i` of the
sorted frame, restricted to rows of the same originator (pandas
`groupby("nameOrig")...rolling(5, min_periods=1)`). -/
def windowAt (sorted : List CleanedRow) (i : ℕ) : List ℚ :=
  lastN 5 (((sorted.take (i + 1)).filter
    (fun s => s.nameOrig == (sorted.getD i default).nameOrig)).map (·.amount))

/-- The feature row produced at position `i` of the sorted frame; `all` is the
original (pre-sort) frame over which the groupwise transforms were computed. -/
def featureRowAt (all sorted : List CleanedRow) (i : ℕ) : FeatureRow :=
  let r := sorted.getD i default
  let grpAmounts := (all.filter (fun s => s.nameOrig == r.nameOrig)).map (·.amount)
  { base := r
    balance_ratio_orig := if 0 < r.oldbalanceOrg then r.amount / r.oldbalanceOrg else 0
    is_full_drain := decide (0 < r.oldbalanceOrg) && decide (r.newbalanceOrig = 0)
    hour_of_day := r.step % 24
    day := r.step / 24
    trns_count_customer := grpAmounts.length
    trns_total_customer := grpAmounts.sum
    trns_avg_customer := qmean grpAmounts
    trns_max_customer := colMax grpAmounts
    daily_trns_velocity := (all.filter
      (fun s => s.nameOrig == r.nameOrig && s.step / 24 == r.step / 24)).length
    rolling_mean_amount := qmean (windowAt sorted i)
    rolling_max_amount := colMax (windowAt sorted i) }

/-- Lines 14–26, `FeatureBuilder.build_features`: the feature table it
produces. -/
def buildFeatures (rows : List CleanedRow) : List FeatureRow :=
  (List.range (sortRows rows).length).map (featureRowAt rows (sortRows rows))

/-- Because `build_features` aliases its argument (`self.features =
cleaned_data`) and every helper mutates that object in place, the table held
by the caller after the call is the very feature table the builder produced. -/
def callerTableAfterBuild (rows : List CleanedRow) : List FeatureRow := buildFeatures rows

theorem range_map_getD (l : List CleanedRow) (d : CleanedRow) :
    (List.range l.length).map (fun i => l.getD i d) = l := by
  apply List.ext_getElem
  · simp
  · intro n h1 h2
    simp only [List.getElem_map, List.getElem_range]
    exact List.getD_eq_getElem l d h2

theorem buildFeatures_map_base (rows : List CleanedRow) :
    (buildFeatures rows).map (·.base) = sortRows rows := by
  rw [buildFeatures, List.map_map]
  exact range_map_getD (sortRows rows) default

theorem mem_lastN_append (n : ℕ) (hn : 1 ≤ n) (m : List ℚ) (a : ℚ) :
    a ∈ lastN n (m ++ [a]) := by
  rw [lastN, List.length_append, List.length_singleton,
    List.drop_append_of_le_length (by omega)]
  exact List.mem_append_right _ (List.mem_singleton_self a)

theorem amount_mem_windowAt (sorted : List CleanedRow) (i : ℕ) (hi : i < sorted.length) :
    (sorted.getD i default).amount ∈ windowAt sorted i := by
  have hd : sorted.getD i default = sorted[i] := List.getD_eq_getElem sorted default hi
  rw [windowAt, hd, List.take_succ, List.getElem?_eq_getElem hi]
  rw [show (some sorted[i]).toList = [sorted[i]] from rfl]
  rw [List.filter_append]
  have hfil : List.filter (fun s => s.nameOrig == sorted[i].nameOrig) [sorted[i]] =
      [sorted[i]] := by simp
  rw [hfil, List.map_append]
  rw [show ([sorted[i]].map (·.amount)) = [sorted[i].amount] from rfl]
  exact mem_lastN_append 5 (by omega) _ _

theorem ne_nil_of_mem {a : ℚ} {l : List ℚ} (h : a ∈ l) : l ≠ [] := by
  intro he
  rw [he] at h
  cases h

theorem qmean_le_colMax (l : List ℚ) (h : l ≠ []) : qmean l ≤ colMax l := by
  have hlen : 0 < l.length := List.length_pos.mpr h
  have hsum : l.sum ≤ l.length • colMax l := List.sum_le_card_nsmul l _ (mem_le_colMax l)
  rw [qmean, div_le_iff₀ (by exact_mod_cast hlen)]
  calc l.sum ≤ l.length • colMax l := hsum
    _ = colMax l * l.length := by rw [nsmul_eq_mul, mul_comm]

/-- C10: In every feature table produced by `build_features`, the
`rolling_max_amount` of each row dominates both the `amount` of that row and
its `rolling_mean_amount`: the trailing window always contains the current
row (`min_periods=1`), and a maximum dominates every window member and the
window mean. -/
theorem rolling_max_dominates (rows : List CleanedRow) (fr : FeatureRow)
    (hfr : fr ∈ buildFeatures rows) :
    fr.base.amount ≤ fr.rolling_max_amount ∧
    fr.rolling_mean_amount ≤ fr.rolling_max_amount := by
  rw [buildFeatures] at hfr
  obtain ⟨i, hi, hfe⟩ := List.mem_map.mp hfr
  rw [List.mem_range] at hi
  subst hfe
  have hmem := amount_mem_windowAt (sortRows rows) i hi
  exact ⟨mem_le_colMax _ _ hmem, qmean_le_colMax _ (ne_nil_of_mem hmem)⟩

/-- Witness for C10 at a one-row table. -/
theorem rolling_max_dominates_witness :
    ((buildFeatures [⟨1, "C1", 100, 0, 0⟩]).getD 0 default).base.amount ≤
      ((buildFeatures [⟨1, "C1", 100, 0, 0⟩]).getD 0 default).rolling_max_amount ∧
    ((buildFeatures [⟨1, "C1", 100, 0, 0⟩]).getD 0 default).rolling_mean_amount ≤
      ((buildFeatures [⟨1, "C1", 100, 0, 0⟩]).getD 0 default).rolling_max_amount := by
  apply rolling_max_dominates
  have hlen : (buildFeatures [⟨1, "C1", 100, 0, 0⟩]).length = 1 := by
    rw [buildFeatures, List.length_map, List.length_range]
    exact (List.perm_insertionSort rowLe _).length_eq
  have h0 : 0 < (buildFeatures [(⟨1, "C1", 100, 0, 0⟩ : CleanedRow)]).length := by
    rw [hlen]
    norm_num
  rw [List.getD_eq_getElem _ _ h0]
  exact List.getElem_mem h0

/-- Counterexample for C9: `build_features` reorders the table the caller
passed in (it is the same object as the produced feature table) — here two
rows of one originator arrive step-descending and end up step-ascending. -/
theorem build_features_mutates_input :
    (callerTableAfterBuild [⟨2, "C1", 200, 0, 0⟩, ⟨1, "C1", 100, 0, 0⟩]).map (·.base) ≠
      [⟨2, "C1", 200, 0, 0⟩, ⟨1, "C1", 100, 0, 0⟩] := by
  rw [callerTableAfterBuild, buildFeatures_map_base]
  decide

/-- C9 (amended): `build_features` aliases and mutates its argument in
place: after the call the table held by the caller is exactly the produced
feature table — the input rows re-sorted by (originator, step) with the feature
columns added (a permutation of the input, sorted on the key); the
computation itself is a pure function of the input, so rerunning it on the
same input yields the same result. -/
theorem build_features_in_place (rows : List CleanedRow) :
    callerTableAfterBuild rows = buildFeatures rows ∧
    ((callerTableAfterBuild rows).map (·.base)).Perm rows ∧
    List.Sorted rowLe ((callerTableAfterBuild rows).map (·.base)) := by
  refine ⟨rfl, ?_, ?_⟩
  · rw [callerTableAfterBuild, buildFeatures_map_base]
    exact List.perm_insertionSort rowLe rows
  · rw [callerTableAfterBuild, buildFeatures_map_base]
    exact List.sorted_insertionSort rowLe rows

/-- The C7 scenario input: originator `C1`, amounts `100..600` at steps
`1..6` (one day), presented out of order to exercise the sort. -/
def sixC1Rows : List CleanedRow :=
  [⟨4, "C1", 400, 1000, 500⟩, ⟨2, "C1", 200, 1000, 500⟩, ⟨6, "C1", 600, 1000, 500⟩,
   ⟨1, "C1", 100, 1000, 500⟩, ⟨5, "C1", 500, 1000, 500⟩, ⟨3, "C1", 300, 1000, 500⟩]

theorem sortRows_sixC1Rows :
    sortRows sixC1Rows =
      [⟨1, "C1", 100, 1000, 500⟩, ⟨2, "C1", 200, 1000, 500⟩, ⟨3, "C1", 300, 1000, 500⟩,
       ⟨4, "C1", 400, 1000, 500⟩, ⟨5, "C1", 500, 1000, 500⟩, ⟨6, "C1", 600, 1000, 500⟩] := by
  decide

/-- C7: `build_features` sorts the rows by (originator id ascending, step
ascending) and computes the rolling features per originator over a trailing
window of the last 5 transactions including the current one; on the scenario
input (originator `C1`, amounts `[100..600]` at steps `1..6` on one day) every
row gets `daily_trns_velocity = 6`, and the sixth row gets
`rolling_mean_amount = 400` and `rolling_max_amount = 600`. -/
theorem build_features_sort_and_rolling :
    (∀ rows : List CleanedRow,
      ((buildFeatures rows).map (·.base)).Perm rows ∧
      List.Sorted rowLe ((buildFeatures rows).map (·.base))) ∧
    (buildFeatures sixC1Rows).map (fun fr => fr.base.step) = [1, 2, 3, 4, 5, 6] ∧
    (buildFeatures sixC1Rows).all (fun fr => fr.daily_trns_velocity == 6) = true ∧
    ((buildFeatures sixC1Rows).getD 5 default).rolling_mean_amount = 400 ∧
    ((buildFeatures sixC1Rows).getD 5 default).rolling_max_amount = 600 := by
  have hlen : (buildFeatures sixC1Rows).length = 6 := by
    rw [buildFeatures, List.length_map, List.length_range, sortRows_sixC1Rows]
    rfl
  have hgd : (buildFeatures sixC1Rows).getD 5 default =
      featureRowAt sixC1Rows (sortRows sixC1Rows) 5 := by
    rw [buildFeatures, List.getD_eq_getElem?_getD, List.getElem?_map]
    rw [show (List.range (sortRows sixC1Rows).length)[5]? = some 5 by
      rw [sortRows_sixC1Rows]; rfl]
    rfl
  have hwin : windowAt (sortRows sixC1Rows) 5 = [200, 300, 400, 500, 600] := by
    rw [sortRows_sixC1Rows]
    decide
  refine ⟨?_, ?_, ?_, ?_, ?_⟩
  · intro rows
    constructor
    · rw [buildFeatures_map_base]
      exact List.perm_insertionSort rowLe rows
    · rw [buildFeatures_map_base]
      exact List.sorted_insertionSort rowLe rows
  · have hmm : (buildFeatures sixC1Rows).map (fun fr => fr.base.step) =
        ((buildFeatures sixC1Rows).map (·.base)).map (·.step) := by
      rw [List.map_map]
      rfl
    rw [hmm, buildFeatures_map_base, sortRows_sixC1Rows]
    decide
  · decide
  · rw [hgd]
    show qmean (windowAt (sortRows sixC1Rows) 5) = 400
    rw [hwin]
    show ((200 : ℚ) + (300 + (400 + (500 + (600 + 0))))) / 5 = 400
    norm_num
  · rw [hgd]
    show colMax (windowAt (sortRows sixC1Rows) 5) = 600
    rw [hwin]
    decide

/-! ## `TransactionFlagger` (`Models/transaction_flagger.py`)

`flag_transactions` builds three `dict(zip(...))` lookup maps from the
customer risk table, joins them onto the transaction rows by `nameOrig` with
`.map(...).fillna(default)`, computes `is_flagged = risk_score >=
risk_threshold` (default 50.0) and assembles a summary dict. -/

/-- One row of the customer risk table (`risk_scores`): the columns the
flagger reads.  `is_anomaly` is the 0/1 integer column of the scorer. -/
structure RiskEntry where
  nameOrig : String
  risk_score : ℚ
  risk_band : String
  is_anomaly : ℚ
deriving DecidableEq, Inhabited

/-- A transaction row as the flagger sees it: originator id plus its other
(pass-through) numeric content, irrelevant to the join. -/
structure Txn where
  nameOrig : String
  amount : ℚ
deriving DecidableEq, Inhabited

/-- A transaction row after flagging: the original row with the four joined /
computed columns appended. -/
structure FlaggedTxn where
  txn : Txn
  risk_score : ℚ
  risk_band : String
  is_anomaly : ℚ
  is_flagged : Bool
deriving DecidableEq, Inhabited

/-- Lookup in `dict(zip(keys, vals))`: a later duplicate key overwrites an
earlier one, a missing key yields `none` (pandas `.map` then gives NaN,
handled by `fillna`). -/
def dictGet {α : Type} (pairs : List (String × α)) (k : String) : Option α :=
  (pairs.reverse.find? (fun p => p.1 == k)).map Prod.snd

/-- The per-row effect of `flag_transactions` (lines 35–45). -/
def flagRow (risk : List RiskEntry) (threshold : ℚ) (t : Txn) : FlaggedTxn :=
  let s := (dictGet (risk.map (fun r => (r.nameOrig, r.risk_score))) t.nameOrig).getD 0
  let b := (dictGet (risk.map (fun r => (r.nameOrig, r.risk_band))) t.nameOrig).getD "Low"
  let a := (dictGet (risk.map (fun r => (r.nameOrig, r.is_anomaly))) t.nameOrig).getD 0
  ⟨t, s, b, a, decide (threshold ≤ s)⟩

def flagTransactions (txns : List Txn) (risk : List RiskEntry) (threshold : ℚ) :
    List FlaggedTxn :=
  txns.map (flagRow risk threshold)

/-- The summary dict of `flag_transactions` (lines 50–61);
`flagged_percentage` (a rounded float) is omitted, no claim mentions it. -/
structure FlagSummary where
  total_transactions : ℕ
  flagged_transactions : ℕ
  byCritical : ℕ
  byHigh : ℕ
  byMedium : ℕ
  risk_threshold_used : ℚ
  anomalies : ℚ
deriving DecidableEq

def mkFlagSummary (flagged : List FlaggedTxn) (threshold : ℚ) : FlagSummary :=
  { total_transactions := flagged.length
    flagged_transactions := (flagged.filter (·.is_flagged)).length
    byCritical := (flagged.filter (fun r => r.risk_band == "Critical")).length
    byHigh := (flagged.filter (fun r => r.risk_band == "High")).length
    byMedium := (flagged.filter (fun r => r.risk_band == "Medium")).length
    risk_threshold_used := threshold
    anomalies := (flagged.map (·.is_anomaly)).sum }

theorem dictGet_eq_none {α : Type} (pairs : List (String × α)) (k : String)
    (h : ∀ p ∈ pairs, p.1 ≠ k) : dictGet pairs k = none := by
  have hn : pairs.reverse.find? (fun p => p.1 == k) = none :=
    List.find?_eq_none.mpr (by
      intro x hx
      simpa using h x (List.mem_reverse.mp hx))
  rw [dictGet, hn]
  rfl

/-- C6: `flag_transactions` never fails on a missing join key: a
transaction whose originator id is absent from the risk table gets
`risk_score = 0`, `risk_band = Low`, `is_anomaly = 0`, and under the default
threshold 50.0 `is_flagged = false`; every row of the output is the row-wise
flagging of the corresponding input row, so a miss affects no other row. -/
theorem flag_missing_key_defaults (txns : List Txn) (risk : List RiskEntry) (t : Txn)
    (h : t.nameOrig ∉ risk.map (·.nameOrig)) :
    flagRow risk 50 t = ⟨t, 0, "Low", 0, false⟩ ∧
    flagTransactions txns risk 50 = txns.map (flagRow risk 50) := by
  refine ⟨?_, rfl⟩
  have habs : ∀ {α : Type} (f : RiskEntry → α),
      dictGet (risk.map (fun r => (r.nameOrig, f r))) t.nameOrig = none := by
    intro α f
    apply dictGet_eq_none
    intro p hp
    obtain ⟨r, hr, rfl⟩ := List.mem_map.mp hp
    exact fun he => h (List.mem_map.mpr ⟨r, hr, he⟩)
  rw [flagRow, habs (·.risk_score), habs (·.risk_band), habs (·.is_anomaly)]
  show FlaggedTxn.mk t 0 "Low" 0 (decide ((50 : ℚ) ≤ 0)) = ⟨t, 0, "Low", 0, false⟩
  rw [show (decide ((50 : ℚ) ≤ 0)) = false by decide]

/-- Witness for C6: originator `C9` is not in the risk table. -/
theorem flag_missing_key_defaults_witness :
    flagRow [⟨"C1", 80, "Critical", 1⟩] 50 ⟨"C9", 5⟩ = ⟨⟨"C9", 5⟩, 0, "Low", 0, false⟩ ∧
    flagTransactions [⟨"C9", 5⟩] [⟨"C1", 80, "Critical", 1⟩] 50 =
      [(⟨"C9", 5⟩ : Txn)].map (flagRow [⟨"C1", 80, "Critical", 1⟩] 50) :=
  flag_missing_key_defaults _ _ _ (by decide)

/-- C8 evaluated at the failing input: one transaction whose originator has
risk band `Medium` and score 30 (below the default threshold 50, hence not
flagged).  The `by_risk_band` entry of the summary for `Medium` is 1 — it counts
every transaction of that band — while the number of flagged `Medium`
transactions is 0. -/
theorem flag_summary_counts_unflagged_rows :
    (mkFlagSummary (flagTransactions [⟨"C1", 10⟩] [⟨"C1", 30, "Medium", 0⟩] 50) 50).byMedium
      = 1 ∧
    ((flagTransactions [⟨"C1", 10⟩] [⟨"C1", 30, "Medium", 0⟩] 50).filter
      (fun r => r.is_flagged && r.risk_band == "Medium")).length = 0 := by
  constructor
  · decide
  · decide

/-! ## `RiskScorer.compute_risk_scores` — aggregation and feature eligibility

A dtype-aware table model, needed because `_aggregate_to_customer` builds its
`agg_dict` only over `features.select_dtypes(include=[np.number])`, in which
pandas does not include bool columns — so the bool `is_full_drain` column
created by `FeatureBuilder._add_transaction_features` never enters the
aggregation, even though the own branch of the code,
`if col in ["is_full_drain", ...]: agg_dict[col] = "sum"`, names it. -/

inductive Dtype
  | num
  | boolean
  | str
deriving DecidableEq

inductive Val
  | num (q : ℚ)
  | bval (b : Bool)
  | sval (s : String)
deriving DecidableEq

/-- A typed rectangular table: named, dtyped columns and row-major values. -/
structure DF where
  cols : List (String × Dtype)
  rows : List (List Val)
deriving DecidableEq

def colNames (df : DF) : List String := df.cols.map Prod.fst

/-- Model of `select_dtypes(include=[np.number])`: int/float columns only;
pandas excludes bool (and object) columns from `np.number`. -/
def numericCols (df : DF) : List (String × Dtype) :=
  df.cols.filter (fun c => c.2 == Dtype.num)

def numericColNames (df : DF) : List String := (numericCols df).map Prod.fst

def colIdx (df : DF) (name : String) : Option ℕ :=
  df.cols.findIdx? (fun c => c.1 == name)

def valToQ : Val → ℚ
  | .num q => q
  | .bval b => if b then 1 else 0
  | .sval _ => 0

def valToS : Val → String
  | .sval s => s
  | _ => ""

def colVals (df : DF) (name : String) : List Val :=
  match colIdx df name with
  | none => []
  | some i => df.rows.map (fun r => r.getD i (Val.num 0))

def colQ (df : DF) (name : String) : List ℚ := (colVals df name).map valToQ

def strLe (a b : String) : Prop := strLt a b ∨ a = b

instance : DecidableRel strLe := fun a b => by unfold strLe; infer_instance

theorem strLe_iff (a b : String) : strLe a b ↔ a ≤ b := by
  rw [strLe, strLt_iff, ← le_iff_lt_or_eq]

instance : IsTrans String strLe where
  trans _a _b _c h1 h2 :=
    (strLe_iff _ _).mpr (le_trans ((strLe_iff _ _).mp h1) ((strLe_iff _ _).mp h2))

instance : IsTotal String strLe where
  total a b := by
    rcases le_total a b with h | h
    · exact Or.inl ((strLe_iff _ _).mpr h)
    · exact Or.inr ((strLe_iff _ _).mpr h)

/-- The `nameOrig` column as strings. -/
def origVals (df : DF) : List String := (colVals df "nameOrig").map valToS

/-- The groupby keys: the distinct originator ids, ascending (pandas `groupby`
sorts its keys). -/
def groupKeys (df : DF) : List String := (origVals df).dedup.insertionSort strLe

def rowsOfKey (df : DF) (k : String) : List (List Val) :=
  match colIdx df "nameOrig" with
  | none => []
  | some i => df.rows.filter (fun r => valToS (r.getD i (Val.num 0)) == k)

def groupColQ (df : DF) (k : String) (c : String) : List ℚ :=
  match colIdx df c with
  | none => []
  | some i => (rowsOfKey df k).map (fun r => valToQ (r.getD i (Val.num 0)))

/-- The columns aggregated by sum; every other numeric column gets the mean
(lines 75–79). -/
def sumAggCols : List String := ["is_full_drain", "trns_count_customer", "daily_trns_velocity"]

def aggCol (name : String) (vs : List ℚ) : ℚ :=
  if name ∈ sumAggCols then vs.sum else qmean vs

/-- Lines 68–82, `_aggregate_to_customer`: returns the input unchanged when
no `nameOrig` column exists; otherwise groups by `nameOrig` and aggregates
exactly the `select_dtypes(np.number)` columns, so bool and string columns
are dropped. -/
def aggregateToCustomer (df : DF) : DF :=
  if "nameOrig" ∈ colNames df then
    { cols := ("nameOrig", Dtype.str) :: numericCols df
      rows := (groupKeys df).map (fun k =>
        Val.sval k :: (numericColNames df).map (fun c => Val.num (aggCol c (groupColQ df k c)))) }
  else df

/-- Lines 22–33, the fixed candidate list `RiskScorer._risk_features`. -/
def riskFeatures : List String :=
  ["amount", "balance_ratio_orig", "is_full_drain", "trns_count_customer",
   "trns_total_customer", "trns_avg_customer", "trns_max_customer",
   "daily_trns_velocity", "rolling_mean_amount", "rolling_max_amount"]

/-- pandas `Series.std() > 0` (ddof=1): the std is NaN for fewer than two
values (making the comparison false), otherwise `sqrt(ssd/(n-1))`, positive
exactly when the sum of squared deviations `ssd` is. -/
def stdPos (vs : List ℚ) : Bool :=
  decide (2 ≤ vs.length) && decide (0 < (vs.map (fun x => (x - qmean vs) ^ 2)).sum)

/-- Lines 85–92, `_get_available_features`. -/
def availableFeatures (df : DF) : List String :=
  riskFeatures.filter (fun f => (numericColNames df).contains f && stdPos (colQ df f))

/-- Lines 35–66, `compute_risk_scores`: the success flag of the returned
`(bool, message)` pair, and the customer-level table.  Steps 3–6 (z-scores,
final score, bands, anomaly flag) never raise and only append derived columns
to the aggregate, so they cannot change the outcome or the rows; the derived
columns themselves are modelled by `rescaleScores`, `getBand` and the z-score
development below. -/
def computeRiskScores (df : DF) : Bool × DF :=
  let agg := aggregateToCustomer df
  if availableFeatures agg = [] then (false, agg) else (true, agg)

theorem computeRiskScores_snd (df : DF) :
    (computeRiskScores df).2 = aggregateToCustomer df := by
  by_cases h : availableFeatures (aggregateToCustomer df) = [] <;>
    simp [computeRiskScores, h]

/-- The features table of the C2 counterexample: no originator-id column,
two rows with dispersion in `amount`. -/
def dfNoOrig : DF :=
  ⟨[("step", Dtype.num), ("amount", Dtype.num)],
   [[Val.num 1, Val.num 10], [Val.num 2, Val.num 20]]⟩

theorem qmean_ten_twenty : qmean [(10 : ℚ), 20] = 15 := by
  rw [qmean]
  simp only [List.sum_cons, List.sum_nil, List.length_cons, List.length_nil]
  norm_num

/-- Counterexample for C2: on a feature table with no originator-id column,
`compute_risk_scores` does not fail — `_aggregate_to_customer` returns the
table unchanged and scoring proceeds on the un-aggregated rows, succeeding
because `amount` has positive sample standard deviation. -/
theorem compute_succeeds_without_orig_column :
    "nameOrig" ∉ colNames dfNoOrig ∧ (computeRiskScores dfNoOrig).1 = true := by
  constructor
  · decide
  · have hagg : aggregateToCustomer dfNoOrig = dfNoOrig := by
      rw [aggregateToCustomer, if_neg (by decide)]
    have hcq : colQ dfNoOrig "amount" = [10, 20] := by decide
    have hstd : stdPos (colQ dfNoOrig "amount") = true := by
      rw [hcq, stdPos]
      simp only [qmean_ten_twenty, List.map_cons, List.map_nil, List.sum_cons,
        List.sum_nil, List.length_cons, List.length_nil, Bool.and_eq_true,
        decide_eq_true_eq]
      norm_num
    have hmem : "amount" ∈ availableFeatures dfNoOrig := by
      rw [availableFeatures]
      apply List.mem_filter.mpr
      refine ⟨by decide, ?_⟩
      rw [Bool.and_eq_true]
      exact ⟨by decide, hstd⟩
    have hne : availableFeatures (aggregateToCustomer dfNoOrig) ≠ [] := by
      rw [hagg]
      exact List.ne_nil_of_mem hmem
    simp only [computeRiskScores, if_neg hne]

/-- C2 (amended): `compute_risk_scores` returns a failure outcome exactly
when no candidate feature of the (aggregated) customer table is a numeric
column with positive sample standard deviation (e.g. a single-customer
dataset); a missing originator-id column is not by itself a failure —
aggregation is simply skipped.  Whenever the originator-id column is present,
the produced table has exactly one aggregate row per unique originator id:
its key column lists the distinct input originator ids, without duplicates. -/
theorem compute_risk_scores_outcome (df : DF) :
    ((computeRiskScores df).1 = false ↔
      ∀ f ∈ riskFeatures, f ∈ numericColNames (aggregateToCustomer df) →
        stdPos (colQ (aggregateToCustomer df) f) = false) ∧
    ("nameOrig" ∈ colNames df →
      (computeRiskScores df).2.rows.map (fun r => r.getD 0 (Val.num 0)) =
        (groupKeys df).map Val.sval ∧
      (groupKeys df).Nodup ∧
      (∀ k : String, k ∈ groupKeys df ↔ k ∈ origVals df)) := by
  constructor
  · constructor
    · intro hf f hf1 hf2
      by_cases h : availableFeatures (aggregateToCustomer df) = []
      · rw [availableFeatures] at h
        have h2 := List.filter_eq_nil_iff.mp h f hf1
        cases hb : stdPos (colQ (aggregateToCustomer df) f)
        · rfl
        · exact absurd (by rw [Bool.and_eq_true]; exact ⟨List.elem_iff.mpr hf2, hb⟩) h2
      · simp only [computeRiskScores, if_neg h] at hf
        exact absurd hf (by simp)
    · intro hall
      have h : availableFeatures (aggregateToCustomer df) = [] := by
        rw [availableFeatures]
        apply List.filter_eq_nil_iff.mpr
        intro f hf hpred
        rw [Bool.and_eq_true] at hpred
        obtain ⟨hc, hs⟩ := hpred
        have hfalse := hall f hf (List.elem_iff.mp hc)
        rw [hfalse] at hs
        exact Bool.false_ne_true hs
      simp only [computeRiskScores, if_pos h]
  · intro hname
    refine ⟨?_, ?_, ?_⟩
    · rw [computeRiskScores_snd, aggregateToCustomer, if_pos hname]
      rw [List.map_map]
      rfl
    · exact ((List.perm_insertionSort strLe (origVals df).dedup).nodup_iff).mpr
        (List.nodup_dedup _)
    · intro k
      rw [groupKeys, (List.perm_insertionSort strLe (origVals df).dedup).mem_iff,
        List.mem_dedup]

/-- The features table of the C2 witness: two distinct originators, one
("B") with two rows. -/
def dfTwoCustomers : DF :=
  ⟨[("nameOrig", Dtype.str), ("amount", Dtype.num)],
   [[Val.sval "B", Val.num 10], [Val.sval "A", Val.num 20], [Val.sval "B", Val.num 30]]⟩

/-- Witness for C2: on a table with originators `B, A, B` the key column of
the aggregate is the deduplicated, sorted `[A, B]`. -/
theorem compute_risk_scores_outcome_witness :
    (computeRiskScores dfTwoCustomers).2.rows.map (fun r => r.getD 0 (Val.num 0)) =
      (groupKeys dfTwoCustomers).map Val.sval ∧
    (groupKeys dfTwoCustomers).Nodup ∧
    ("A" ∈ groupKeys dfTwoCustomers ↔ "A" ∈ origVals dfTwoCustomers) := by
  have h := (compute_risk_scores_outcome dfTwoCustomers).2 (by decide)
  exact ⟨h.1, h.2.1, h.2.2 "A"⟩

/-- The features table of the C3 failing input: `is_full_drain` is a bool
column (as `_add_transaction_features` creates it) holding `True`. -/
def dfBoolDrain : DF :=
  ⟨[("nameOrig", Dtype.str), ("amount", Dtype.num), ("is_full_drain", Dtype.boolean)],
   [[Val.sval "C1", Val.num 10, Val.bval true]]⟩

/-- C3 evaluated at the failing input: the features table carries a bool
`is_full_drain` column, yet the customer-level aggregate produced by
`_aggregate_to_customer` has no `is_full_drain` column at all —
`select_dtypes(include=[np.number])` excludes bool columns, so the column
never enters `agg_dict` even though the own aggregation branch of the code
lists it under sum. -/
theorem aggregate_drops_bool_is_full_drain :
    ("is_full_drain", Dtype.boolean) ∈ dfBoolDrain.cols ∧
    "is_full_drain" ∉ colNames (aggregateToCustomer dfBoolDrain) := by
  constructor
  · decide
  · decide

/-! ## `RiskScorer._compute_z_scores` and the composite score (lines 94–111)

    col_data = self.risk_scores[feature].fillna(0)
    z_scores = stats.zscore(col_data, nan_policy="omit")   # default ddof=0
    ...
    composite_zscore = self.risk_scores[z_cols].abs().mean(axis=1)

`scipy.stats.zscore` divides by a square root, which forces the value domain
to `ℝ` for this part of the development; a feature column over the customer
population is a `List (Option ℝ)` (`none` = missing value).  After
`fillna(0)` no value is missing, so `nan_policy="omit"` has nothing to omit
and `zscore` is the plain population formula. -/

noncomputable def rmean (l : List ℝ) : ℝ := l.sum / l.length

/-- Population variance (`ddof = 0`): the mean squared deviation. -/
noncomputable def popVar (l : List ℝ) : ℝ := rmean (l.map (fun x => (x - rmean l) ^ 2))

/-- Model of `scipy.stats.zscore` with its default `ddof = 0`. -/
noncomputable def zscoreCol (l : List ℝ) : List ℝ :=
  l.map (fun x => (x - rmean l) / Real.sqrt (popVar l))

/-- Model of pandas `Series.fillna(0)`. -/
def fillna0 (c : List (Option ℝ)) : List ℝ := c.map (fun v => v.getD 0)

/-- Lines 94–100, `_compute_z_scores`: one z-column per eligible feature,
each computed from the `fillna(0)`-patched feature column. -/
noncomputable def computeZScoreCols (cols : List (List (Option ℝ))) : List (List ℝ) :=
  cols.map (fun c => zscoreCol (fillna0 c))

/-- The `composite_zscore` of customer `i`: the row-wise mean of absolute
values across the z-columns (`.abs().mean(axis=1)`). -/
noncomputable def compositeZscore (cols : List (List (Option ℝ))) (i : ℕ) : ℝ :=
  rmean ((computeZScoreCols cols).map (fun z => |z.getD i 0|))

/-- The z-score exactly as the specification words it: missing values are
treated as 0, then the value of each customer is standardized by the
population mean and the population standard deviation `sqrt(Σ(x−μ)²/n)` —
`n`, not `n−1`, in the denominator. -/
noncomputable def specZ (c : List (Option ℝ)) (i : ℕ) : ℝ :=
  ((fillna0 c).getD i 0 - rmean (fillna0 c)) /
    Real.sqrt (((fillna0 c).map (fun y => (y - rmean (fillna0 c)) ^ 2)).sum /
      (fillna0 c).length)

/-- The composite score as the specification words it: the arithmetic mean of
the absolute per-feature z-scores of customer `i`. -/
noncomputable def specComposite (cols : List (List (Option ℝ))) (i : ℕ) : ℝ :=
  (cols.map (fun c => |specZ c i|)).sum / cols.length

theorem popVar_eq_sum_div (l : List ℝ) :
    popVar l = ((l.map (fun y => (y - rmean l) ^ 2)).sum) / l.length := by
  rw [popVar, rmean, List.length_map]

theorem zscoreCol_fillna_eq (c : List (Option ℝ)) :
    zscoreCol (fillna0 c) = (List.range c.length).map (specZ c) := by
  apply List.ext_getElem
  · simp [zscoreCol, fillna0]
  · intro n h1 h2
    have hn : n < (fillna0 c).length := by
      simpa [zscoreCol] using h1
    simp only [zscoreCol, List.getElem_map, List.getElem_range]
    rw [specZ]
    congr 1
    · rw [List.getD_eq_getElem _ _ hn]
    · rw [popVar_eq_sum_div]

theorem compositeZscore_eq_spec (cols : List (List (Option ℝ))) (i : ℕ)
    (hi : ∀ c ∈ cols, i < c.length) : compositeZscore cols i = specComposite cols i := by
  rw [compositeZscore, specComposite, rmean, computeZScoreCols, List.map_map]
  simp only [Function.comp_def]
  have hmap : cols.map (fun c => |(zscoreCol (fillna0 c)).getD i 0|) =
      cols.map (fun c => |specZ c i|) := by
    apply List.map_congr_left
    intro c hc
    rw [zscoreCol_fillna_eq c]
    have hb : i < ((List.range c.length).map (specZ c)).length := by
      simpa using hi c hc
    rw [List.getD_eq_getElem _ _ hb]
    simp [List.getElem_map, List.getElem_range]
  rw [hmap, List.length_map]

/-- C4: For every eligible feature, `compute_risk_scores` first replaces
missing values with 0 and then standardizes the value of each customer with
the population (`ddof=0`, not sample) mean and standard deviation over the
full customer population of the run — the z-column equals the pointwise spec
formula `(x_i − μ)/sqrt(Σ(x−μ)²/n)` — and the `composite_zscore` of each
customer equals the arithmetic mean of the absolute values of all the
per-feature z-scores of that customer. -/
theorem zscore_population_composite :
    (∀ c : List (Option ℝ),
      zscoreCol (fillna0 c) = (List.range c.length).map (specZ c)) ∧
    (∀ (cols : List (List (Option ℝ))) (i : ℕ), (∀ c ∈ cols, i < c.length) →
      compositeZscore cols i = specComposite cols i) :=
  ⟨zscoreCol_fillna_eq, compositeZscore_eq_spec⟩

/-- Witness for C4 at a two-customer, one-feature population. -/
theorem zscore_population_composite_witness :
    compositeZscore [[some (1 : ℝ), some (-1)]] 0 =
      specComposite [[some (1 : ℝ), some (-1)]] 0 :=
  zscore_population_composite.2 [[some (1 : ℝ), some (-1)]] 0 (by
    intro c hc
    rw [List.mem_singleton] at hc
    subst hc
    norm_num)

end BankRisk
